import Mathlib

/-!
Shallow embedding of the collection core of the repository (scraper package):
the proxy pool manager (src/scraper/proxy_manager.py), the retrying fetch
clients (src/scraper/base_scraper.py and src/scraper/async_scraper.py), the
bounded task scheduler and normalizer (src/scraper/async_scraper.py), and the
multi-engine search aggregator (src/scraper/alternative_search.py).

Network calls, wall-clock sleeps and randomness are modelled as explicit
environment parameters: per-source fetch outcomes, per-attempt request
outcomes, a pick function for random.choice, and a clock indexed by call.
Sleeps are recorded as events instead of being performed.
-/

namespace Spec2Proof

/-- A proxy candidate as built by the fetch sources in proxy_manager.py:
dict with keys ip, port, country, anonymity, https, source. -/
structure Proxy where
  ip : String
  port : String
  country : String
  anonymity : String
  https : Bool
  src : String
deriving DecidableEq, Repr

/-- The ip/port pair: what remove_proxy reads from the dict it is given,
and the dedup key used by fetch_proxies. -/
structure ProxyRef where
  ip : String
  port : String
deriving DecidableEq, Repr

/-- f"{proxy['ip']}:{proxy['port']}" (fetch_proxies dedup key). -/
def proxyKey (p : Proxy) : String :=
  p.ip ++ ":" ++ p.port

/-- The seen-set dedup loop that appears twice in the source (end of
fetch_proxies keyed by ip:port, end of collect_all_data and of search_all
keyed by url): seen is the set of keys already emitted, the first occurrence
of each key wins, later duplicates are dropped without error. -/
def dedupByUrl (key : α → String) : List α → List String → List α
  | [], _ => []
  | x :: xs, seen =>
    if key x ∈ seen then dedupByUrl key xs seen
    else x :: dedupByUrl key xs (key x :: seen)

/-- Mutable state of the ProxyManager singleton: working_proxies and
last_fetch (time as a Nat; fetch_interval is one hour in seconds). -/
structure PMState where
  working_proxies : List Proxy
  last_fetch : Option Nat
deriving DecidableEq, Repr

/-- fetch_interval = timedelta(hours=1), in seconds. -/
def fetch_interval : Nat := 3600

/-- The dedup loop at the end of fetch_proxies, keyed by ip:port. -/
def dedupProxies (l : List Proxy) (seen : List String) : List Proxy :=
  dedupByUrl proxyKey l seen

/-- One proxy-list source inside fetch_proxies: its try/except block turns an
error into zero contributed candidates. -/
def sourceList (s : Except String (List Proxy)) : List Proxy :=
  match s with
  | .ok l => l
  | .error _ => []

/-- fetch_proxies: extend all_proxies with each source's candidates (a source
that raises contributes nothing), then deduplicate by ip:port. -/
def fetch_proxies (s1 s2 s3 : Except String (List Proxy)) : List Proxy :=
  dedupProxies (sourceList s1 ++ sourceList s2 ++ sourceList s3) []

/-- Environment of the proxy manager: the three source outcomes used by a
refresh, the test_proxy oracle, the random.choice resolution (indexed by
get_proxy call number so every random sequence is an instance), and the
clock (time observed at the idx-th get_proxy call). -/
structure PMEnv where
  src1 : Except String (List Proxy)
  src2 : Except String (List Proxy)
  src3 : Except String (List Proxy)
  testOk : Proxy → Bool
  pick : Nat → List Proxy → Proxy
  clock : Nat → Nat

/-- refresh_proxies: working_proxies := test_proxies_parallel(fetch_proxies()),
last_fetch := now.  test_proxies_parallel keeps exactly the candidates whose
probe succeeds; its completion order is modelled as submission order. -/
def refresh_proxies (env : PMEnv) (_s : PMState) (now : Nat) : PMState :=
  { working_proxies := (fetch_proxies env.src1 env.src2 env.src3).filter env.testOk
    last_fetch := some now }

/-- The refresh guard at the top of get_proxy:
not working_proxies or (last_fetch and now - last_fetch > fetch_interval). -/
def needs_refresh (s : PMState) (now : Nat) : Bool :=
  s.working_proxies.isEmpty ||
    (match s.last_fetch with
     | some t => decide (fetch_interval < now - t)
     | none => false)

/-- get_proxy: inline refresh when the pool is empty or stale, then
random.choice over working_proxies when non-empty, else None. -/
def get_proxy (env : PMEnv) (s : PMState) (idx : Nat) (now : Nat) :
    Option Proxy × PMState :=
  let s1 := if needs_refresh s now then refresh_proxies env s now else s
  if s1.working_proxies.isEmpty then (none, s1)
  else (some (env.pick idx s1.working_proxies), s1)

/-- get_proxy_dict: {'http': url, 'https': url} with url = f"http://{ip}:{port}";
the retry loop only ever reads list(proxies.values())[0], so the dict is
modelled by that one url. -/
def get_proxy_dict_url (p : Proxy) : String :=
  "http://" ++ p.ip ++ ":" ++ p.port

/-- remove_proxy: keep p when p['ip'] != proxy['ip'] or p['port'] != proxy['port'];
only the ip and port of the argument dict are read. -/
def remove_proxy (s : PMState) (proxy : ProxyRef) : PMState :=
  { s with
    working_proxies :=
      s.working_proxies.filter (fun p => p.ip != proxy.ip || p.port != proxy.port) }

/-- The bad-proxy extraction in the ProxyError branch of _retry_request:
if '://' in proxy_url, parts = proxy_url.split('://')[1].split(':'),
and only when that gives exactly [ip, port] is a removal dict built. -/
def parseBadProxy (url : String) : Option ProxyRef :=
  match url.splitOn "://" with
  | _ :: rest :: _ =>
    match rest.splitOn ":" with
    | [ip, port] => some ⟨ip, port⟩
    | _ => none
  | _ => none

/-- Configuration of BaseScraper read from the environment at construction:
max_retries, use_proxy, and the manual proxy_url ("" = unset). -/
structure RetryConfig where
  max_retries : Nat
  use_proxy : Bool
  proxy_url : String

/-- Outcome the network hands one attempt of _retry_request: a successful
response (its body), a requests.exceptions.ProxyError, or any other
requests.exceptions.RequestException (timeout, reset, raise_for_status). -/
inductive AttemptOutcome where
  | success (body : String)
  | proxyError
  | transientError
deriving DecidableEq, Repr

/-- A recorded sleep of a retry loop. backoff is time.sleep(2 ** attempt) in
the transient branch, proxyBackoff the same sleep in the ProxyError branch,
rateWait the (attempt + 1) * 5 wait of the async client's 429 branch.
The per-attempt _rate_limit pacing sleep is not a backoff and not recorded. -/
inductive SleepEv where
  | backoff (attempt : Nat) (delay : Nat)
  | proxyBackoff (attempt : Nat) (delay : Nat)
  | rateWait (attempt : Nat) (delay : Nat)
deriving DecidableEq, Repr

/-- The attempt index a sleep event was issued at. -/
def SleepEv.attempt : SleepEv → Nat
  | .backoff a _ => a
  | .proxyBackoff a _ => a
  | .rateWait a _ => a

/-- The duration of a sleep event. -/
def SleepEv.delay : SleepEv → Nat
  | .backoff _ d => d
  | .proxyBackoff _ d => d
  | .rateWait _ d => d

/-- _get_proxy_for_request: None when use_proxy is off, the manual dict when
proxy_url is set, else proxy_manager.get_proxy() + get_proxy_dict.
Returns (url used or none, pool state, next pick index). -/
def getProxyForRequest (cfg : RetryConfig) (env : PMEnv) (pool : PMState)
    (idx : Nat) : Option String × PMState × Nat :=
  if !cfg.use_proxy then (none, pool, idx)
  else if cfg.proxy_url != "" then (some cfg.proxy_url, pool, idx)
  else
    match get_proxy env pool idx (env.clock idx) with
    | (some p, pool1) => (some (get_proxy_dict_url p), pool1, idx + 1)
    | (none, pool1) => (none, pool1, idx + 1)

/-- The eviction in the ProxyError branch: only when a proxies dict was used
and no manual proxy_url is set; the url is parsed back into ip and port and
handed to proxy_manager.remove_proxy. -/
def evictBad (cfg : RetryConfig) (proxies : Option String) (pool : PMState) :
    PMState :=
  match proxies with
  | none => pool
  | some url =>
    if cfg.proxy_url != "" then pool
    else
      match parseBadProxy url with
      | some ref => remove_proxy pool ref
      | none => pool

/-- The retry loop of BaseScraper._retry_request: for attempt in
range(max_retries).  fuel counts the loop iterations still available
(fuel = max_retries - attempt along every real run; fuel 0 is the loop
running out, which returns None); attempt is the source's loop index, used
exactly where the source uses it.  success returns the response; ProxyError
evicts the used proxy and, unless attempt == max_retries - 1, sleeps
2 ** attempt and continues; any other RequestException returns None on the
last attempt and otherwise sleeps 2 ** attempt and continues.  Returns
(result, pool, backoff sleeps issued, in order). -/
def retryAux (cfg : RetryConfig) (env : PMEnv) (out : Nat → AttemptOutcome) :
    Nat → Nat → PMState → Nat → Option String × PMState × List SleepEv
  | 0, _, pool, _ => (none, pool, [])
  | fuel + 1, attempt, pool, idx =>
    let g := getProxyForRequest cfg env pool idx
    match out attempt with
    | .success body => (some body, g.2.1, [])
    | .proxyError =>
      let pool2 := evictBad cfg g.1 g.2.1
      if attempt < cfg.max_retries - 1 then
        let r := retryAux cfg env out fuel (attempt + 1) pool2 g.2.2
        (r.1, r.2.1, .proxyBackoff attempt (2 ^ attempt) :: r.2.2)
      else (none, pool2, [])
    | .transientError =>
      if attempt == cfg.max_retries - 1 then (none, g.2.1, [])
      else
        let r := retryAux cfg env out fuel (attempt + 1) g.2.1 g.2.2
        (r.1, r.2.1, .backoff attempt (2 ^ attempt) :: r.2.2)

/-- BaseScraper._retry_request: the loop over range(max_retries) starting at
attempt 0. -/
def retryRequest (cfg : RetryConfig) (env : PMEnv) (out : Nat → AttemptOutcome)
    (pool : PMState) : Option String × PMState × List SleepEv :=
  retryAux cfg env out cfg.max_retries 0 pool 0

/-- Outcome the network hands one attempt of AsyncScraper.fetch_with_retry:
a status-code response with a body, or a raised exception. -/
inductive HttpOutcome where
  | resp (status : Nat) (body : String)
  | exn
deriving DecidableEq, Repr

/-- The loop of AsyncScraper.fetch_with_retry: for attempt in
range(max_retries), with fuel the iterations still available (fuel 0 = the
loop ran out, return None).  status 200 returns the text; status 429 sleeps
(attempt + 1) * 5 and continues; any other status just continues; an
exception sleeps 2 ** attempt unless attempt == max_retries - 1, then
continues. -/
def fetchWithRetryAux (max_retries : Nat) (out : Nat → HttpOutcome) :
    Nat → Nat → Option String × List SleepEv
  | 0, _ => (none, [])
  | fuel + 1, attempt =>
    match out attempt with
    | .resp status body =>
      if status == 200 then (some body, [])
      else if status == 429 then
        let r := fetchWithRetryAux max_retries out fuel (attempt + 1)
        (r.1, .rateWait attempt ((attempt + 1) * 5) :: r.2)
      else fetchWithRetryAux max_retries out fuel (attempt + 1)
    | .exn =>
      if attempt < max_retries - 1 then
        let r := fetchWithRetryAux max_retries out fuel (attempt + 1)
        (r.1, .backoff attempt (2 ^ attempt) :: r.2)
      else fetchWithRetryAux max_retries out fuel (attempt + 1)

/-- AsyncScraper.fetch_with_retry: the loop over range(max_retries) starting
at attempt 0. -/
def fetchWithRetry (max_retries : Nat) (out : Nat → HttpOutcome) :
    Option String × List SleepEv :=
  fetchWithRetryAux max_retries out max_retries 0

/-- true exactly on AttemptOutcome.success. -/
def AttemptOutcome.isSuccess : AttemptOutcome → Bool
  | .success _ => true
  | _ => false

/-- true exactly on a response whose status is 200 (the one branch of
fetch_with_retry that returns a result). -/
def HttpOutcome.is200 : HttpOutcome → Bool
  | .resp status _ => status == 200
  | .exn => false

/-- true exactly on the transient-failure exponential-backoff sleeps. -/
def SleepEv.isBackoff : SleepEv → Bool
  | .backoff _ _ => true
  | _ => false

/-- One externally visible operation against the proxy pool.  getOp carries
the time datetime.now() observes; refreshOp is a direct refresh_proxies
call (get_proxy's inline refresh is inside getOp itself). -/
inductive PoolOp where
  | removeOp (q : ProxyRef)
  | getOp (now : Nat)
  | refreshOp (now : Nat)
deriving DecidableEq, Repr

/-- Run a sequence of pool operations against the ProxyManager state,
threading the pick index.  Returns the final state, the value of every
get_proxy call in order, and whether any refresh ran (a direct refreshOp or
get_proxy's inline refresh). -/
def runOps (env : PMEnv) : PMState → Nat → List PoolOp →
    PMState × List (Option Proxy) × Bool
  | s, _, [] => (s, [], false)
  | s, idx, .removeOp q :: rest =>
    let r := runOps env (remove_proxy s q) idx rest
    (r.1, r.2.1, r.2.2)
  | s, idx, .getOp now :: rest =>
    let g := get_proxy env s idx now
    let r := runOps env g.2 (idx + 1) rest
    (r.1, g.1 :: r.2.1, needs_refresh s now || r.2.2)
  | s, idx, .refreshOp now :: rest =>
    let r := runOps env (refresh_proxies env s now) idx rest
    (r.1, r.2.1, true)

/-- A proxy entry that does not match the removed ip/port pair (the keep
condition of remove_proxy's filter). -/
def keptBy (ref : ProxyRef) (p : Proxy) : Bool :=
  p.ip != ref.ip || p.port != ref.port

/-- A search hit as built by search_duckduckgo / search_bing / the
AlternativeSearch engines: url, title, snippet. -/
structure SearchResult where
  url : String
  title : String
  snippet : String
deriving DecidableEq, Repr

/-- A normalized record as built by parse_linkedin_result.  The two
datetime fields (timestamp, scraped_at) are wall-clock values and are not
part of the embedding. -/
structure Post where
  platform : String
  post_type : String
  url : String
  title : String
  author : Option String
  content : String
  keywords_found : List String
deriving DecidableEq, Repr

/-- Case-insensitive-ready substring test: Python's `pat in s` on the
already-lowercased strings the code passes. -/
def strContains (s pat : String) : Bool :=
  decide (pat.toList <:+: s.toList)

/-- Python's str.lower(), character by character (structural, so concrete
instances evaluate). -/
def lowerStr (s : String) : String :=
  ⟨s.data.map Char.toLower⟩

/-- The static keyword taxonomy self.keywords of AsyncScraper/BaseScraper. -/
def keywords_taxonomy : List (String × List String) :=
  [("people", ["Marc Benioff", "Bret Taylor"]),
   ("products", ["Agentforce", "Sierra.AI", "Sierra AI"]),
   ("companies", ["Salesforce"]),
   ("general", ["AI", "CRM agents", "artificial intelligence"])]

/-- _extract_keywords: collect every taxonomy keyword whose lowercase form is
a substring of the lowercase text, then list(set(...)).  The set is modelled
by dedup (same members, each once; Python's set order is arbitrary). -/
def extract_keywords (taxonomy : List (String × List String)) (text : String) :
    List String :=
  (taxonomy.foldl
    (fun acc ck =>
      acc ++ ck.2.filter (fun kw => strContains (lowerStr text) (lowerStr kw))) []).dedup

/-- parse_linkedin_result: tag extraction over snippet + ' ' + title with the
query keyword as fallback, post_type from the url path, author split out of
the title. -/
def parse_linkedin_result (taxonomy : List (String × List String))
    (r : SearchResult) (keyword : String) : Post :=
  let text := r.snippet ++ " " ++ r.title
  let kws0 := extract_keywords taxonomy text
  let kws :=
    if kws0.isEmpty && !(kws0.contains keyword) then kws0 ++ [keyword] else kws0
  let post_type :=
    if strContains r.url "/pulse/" then "article"
    else if strContains r.url "/posts/" then "post"
    else if strContains r.url "/in/" then "profile"
    else "other"
  let author :=
    if strContains r.title " on LinkedIn" then
      some ((r.title.splitOn " on LinkedIn").headD "").trim
    else if strContains r.title " | LinkedIn" then
      some ((r.title.splitOn " | LinkedIn").headD "").trim
    else none
  { platform := "linkedin", post_type := post_type, url := r.url,
    title := r.title, author := author, content := r.snippet,
    keywords_found := kws }

/-- The consumption loop of collect_all_data over asyncio.as_completed:
a task that raised is caught at the boundary and contributes nothing; a
completed batch extends results, and the loop breaks as soon as
len(results) >= target_count.  Returns (results, whether the break fired). -/
def consumeLoop (target : Nat) (acc : List Post) :
    List (Except String (List Post)) → List Post × Bool
  | [] => (acc, false)
  | .error _ :: rest => consumeLoop target acc rest
  | .ok batch :: rest =>
    let acc2 := acc ++ batch
    if target ≤ acc2.length then (acc2, true)
    else consumeLoop target acc2 rest

/-- A task outcome whose batch (when it completed) holds at most B posts. -/
def batchBoundedBy (B : Nat) : Except String (List Post) → Bool
  | .ok b => decide (b.length ≤ B)
  | .error _ => true

/-- collect_all_data after the gather loop: results are already flat (each
consumed element is one post dict, always truthy), so the isinstance flatten
pass is the identity; then dedup by url and truncate to target_count. -/
def collect_all_data (target : Nat)
    (outcomes : List (Except String (List Post))) : List Post :=
  let results := (consumeLoop target [] outcomes).1
  (dedupByUrl Post.url results []).take target

/-- AlternativeSearch.search_all, with each engine an environment function
from the num_results it is asked for to the hits it returns: DuckDuckGo
always runs; Searx runs only while the running total is short of
num_results; Startpage likewise; then dedup by url.  The two Bool
components record whether Searx and Startpage were called. -/
def search_all (num : Nat) (ddg searx startpage : Nat → List SearchResult) :
    List SearchResult × Bool × Bool :=
  let a1 := ddg num
  if a1.length < num then
    let a2 := a1 ++ searx (num - a1.length)
    if a2.length < num then
      let a3 := a2 ++ startpage (num - a2.length)
      (dedupByUrl SearchResult.url a3 [], true, true)
    else (dedupByUrl SearchResult.url a2 [], true, false)
  else (dedupByUrl SearchResult.url a1 [], false, false)

/-! Concrete inputs used by the closed witness and counterexample theorems. -/

/-- Fallback proxy for the concrete pick function (never handed out on a
non-empty pool). -/
def proxyW0 : Proxy := ⟨"d", "0", "", "", false, ""⟩

/-- A concrete working proxy. -/
def proxyW1 : Proxy := ⟨"a", "1", "US", "elite", true, "free-proxy-list"⟩

/-- A concrete working proxy. -/
def proxyW2 : Proxy := ⟨"b", "2", "DE", "anonymous", false, "proxyscrape"⟩

/-- A concrete working proxy. -/
def proxyW3 : Proxy := ⟨"c", "3", "FR", "elite", true, "sslproxies"⟩

/-- A concrete working proxy. -/
def proxyW4 : Proxy := ⟨"e", "4", "GB", "elite", true, "sslproxies"⟩

/-- A concrete proxy-manager environment: empty or failing sources, probes
succeed, random.choice resolved to the head, a frozen clock. -/
def envW : PMEnv :=
  ⟨.ok [], .error "unreachable", .ok [], fun _ => true,
    fun _ l => l.headD proxyW0, fun _ => 0⟩

/-- A concrete non-empty, freshly fetched pool. -/
def poolW : PMState := ⟨[proxyW1, proxyW2, proxyW3, proxyW4], some 0⟩

/-- MAX_RETRIES=3, USE_PROXY=true, no manual PROXY_URL. -/
def cfgW : RetryConfig := ⟨3, true, ""⟩

/-- MAX_RETRIES=3, USE_PROXY=false. -/
def cfgNoProxyW : RetryConfig := ⟨3, false, ""⟩

/-- Three proxy failures, then a success the loop never reaches. -/
def outProxyFailW : Nat → AttemptOutcome :=
  fun n => if n < 3 then .proxyError else .success "ok"

/-- Two transient failures, then a success. -/
def outTransientW : Nat → AttemptOutcome :=
  fun n => if n < 2 then .transientError else .success "yes"

/-- A request that fails transiently on every attempt. -/
def outAllFailW : Nat → AttemptOutcome := fun _ => .transientError

/-- Async stream: two exceptions, then a 200. -/
def houtW : Nat → HttpOutcome :=
  fun n => if n < 2 then .exn else .resp 200 "body"

/-- Async stream that never yields a 200: a 429, a 503, then exceptions. -/
def houtAllFailW : Nat → HttpOutcome :=
  fun n => if n == 0 then .resp 429 "" else if n == 1 then .resp 503 "" else .exn

/-- A concrete normalized record. -/
def postW1 : Post := ⟨"linkedin", "post", "u1", "t1", none, "c1", ["AI"]⟩

/-- A concrete normalized record with a second url. -/
def postW2 : Post := ⟨"linkedin", "post", "u2", "t2", none, "c2", ["AI"]⟩

/-- A concrete normalized record with a third url. -/
def postW3 : Post := ⟨"glassdoor", "review", "u3", "t3", some "A", "c3", ["Salesforce"]⟩

/-- A single completed batch of 12 copies of one record. -/
def batchBigW : List Post := List.replicate 12 postW1

/-- A concrete search hit. -/
def srW1 : SearchResult := ⟨"a", "t", "s"⟩

/-- A concrete search hit with a second url. -/
def srW2 : SearchResult := ⟨"b", "t", "s"⟩

/-- A hit from a different backend sharing srW1's url. -/
def srW3 : SearchResult := ⟨"a", "t2", "s2"⟩

/-- A search hit whose text contains no taxonomy keyword. -/
def rAcmeW : SearchResult := ⟨"https://example.com/x", "Weekly notes", "quarterly update"⟩

/-!  Theorems. -/

/-- Every element the seen-set dedup loop emits has its key outside seen and
is the first element of the input carrying its key. -/
theorem dedupByUrl_first (key : α → String) :
    ∀ (l : List α) (seen : List String) (x : α), x ∈ dedupByUrl key l seen →
      key x ∉ seen ∧ l.find? (fun y => key y == key x) = some x := by
  intro l
  induction l with
  | nil => intro seen x hx; simp [dedupByUrl] at hx
  | cons y l ih =>
    intro seen x hx
    by_cases h : key y ∈ seen
    · rw [dedupByUrl, if_pos h] at hx
      obtain ⟨hns, hf⟩ := ih seen x hx
      have hne : (key y == key x) = false := by
        simp only [beq_eq_false_iff_ne]
        intro he
        exact hns (he ▸ h)
      exact ⟨hns, by simp [List.find?, hne, hf]⟩
    · rw [dedupByUrl, if_neg h] at hx
      rcases List.mem_cons.mp hx with rfl | hx
      · exact ⟨h, by simp [List.find?]⟩
      · obtain ⟨hns, hf⟩ := ih (key y :: seen) x hx
        have h1 : key x ∉ seen := fun hc => hns (List.mem_cons_of_mem _ hc)
        have h2 : key x ≠ key y := fun hc => hns (by simp [hc])
        have hne : (key y == key x) = false := by
          simp only [beq_eq_false_iff_ne]
          exact fun he => h2 he.symm
        exact ⟨h1, by simp [List.find?, hne, hf]⟩

/-- The seen-set dedup loop emits pairwise distinct keys. -/
theorem dedupByUrl_pairwise (key : α → String) :
    ∀ (l : List α) (seen : List String),
      (dedupByUrl key l seen).Pairwise (fun a b => key a ≠ key b) := by
  intro l
  induction l with
  | nil => intro seen; simp [dedupByUrl]
  | cons y l ih =>
    intro seen
    by_cases h : key y ∈ seen
    · rw [dedupByUrl, if_pos h]; exact ih seen
    · rw [dedupByUrl, if_neg h]
      refine List.Pairwise.cons ?_ (ih (key y :: seen))
      intro x hx he
      exact (dedupByUrl_first key l (key y :: seen) x hx).1 (by simp [he])

/-- Claim C4: within a session no two emitted records share an address:
both the scheduler's final dedup and the aggregator's dedup emit pairwise
distinct urls, each emitted record is the first occurrence of its url in
the input stream, and later occurrences (also ones arriving from a second
search backend) are dropped silently. -/
theorem session_urls_unique (target : Nat)
    (outs : List (Except String (List Post))) (num : Nat)
    (ddg searx startpage : Nat → List SearchResult) (l : List Post) :
    ((collect_all_data target outs).Pairwise (fun a b => a.url ≠ b.url))
    ∧ ((search_all num ddg searx startpage).1.Pairwise (fun a b => a.url ≠ b.url))
    ∧ (∀ x ∈ dedupByUrl Post.url l [], l.find? (fun y => y.url == x.url) = some x) := by
  refine ⟨?_, ?_, ?_⟩
  · exact List.Pairwise.sublist (List.take_sublist _ _)
      (dedupByUrl_pairwise Post.url (consumeLoop target [] outs).1 [])
  · simp only [search_all]
    split_ifs <;> exact dedupByUrl_pairwise SearchResult.url _ _
  · intro x hx
    exact (dedupByUrl_first Post.url l [] x hx).2

/-- Claim C10: for every target_count and every sequence of task outcomes,
collect_all_data returns at most target_count records: the deduplicated
list is truncated to its first target_count entries. -/
theorem collect_all_data_length_le (target : Nat)
    (outs : List (Except String (List Post))) :
    (collect_all_data target outs).length ≤ target
    ∧ collect_all_data target outs
        = (dedupByUrl Post.url (consumeLoop target [] outs).1 []).take target := by
  exact ⟨List.length_take_le target _, rfl⟩

/-- Claim C8: the aggregator tries its backends in the fixed order
DuckDuckGo, Searx, Startpage; after each backend's results are added it
checks the running total against num_results and calls no later backend
once the total meets it. -/
theorem search_all_priority (num : Nat)
    (ddg searx startpage : Nat → List SearchResult) :
    (num ≤ (ddg num).length →
      search_all num ddg searx startpage
        = (dedupByUrl SearchResult.url (ddg num) [], false, false))
    ∧ ((ddg num).length < num →
        num ≤ (ddg num ++ searx (num - (ddg num).length)).length →
        search_all num ddg searx startpage
          = (dedupByUrl SearchResult.url
              (ddg num ++ searx (num - (ddg num).length)) [], true, false))
    ∧ ((search_all num ddg searx startpage).2.1 = true → (ddg num).length < num)
    ∧ ((search_all num ddg searx startpage).2.2 = true →
        (ddg num ++ searx (num - (ddg num).length)).length < num) := by
  refine ⟨?_, ?_, ?_, ?_⟩
  · intro h
    simp only [search_all]
    rw [if_neg (by omega)]
  · intro h1 h2
    simp only [search_all]
    rw [if_pos h1, if_neg (by omega)]
  · simp only [search_all]
    split_ifs with h1 h2 <;> intro hf
    · exact h1
    · exact h1
    · simp at hf
  · simp only [search_all]
    split_ifs with h1 h2 <;> intro hf
    · exact h2
    · simp at hf
    · simp at hf

/-- Witness for C8 at a concrete input: DuckDuckGo already meets the
request, so Searx and Startpage are not called. -/
theorem search_all_priority_witness :
    search_all 1 (fun _ => [srW1, srW2]) (fun _ => [srW3]) (fun _ => [srW2])
      = (dedupByUrl SearchResult.url [srW1, srW2] [], false, false) :=
  (search_all_priority 1 (fun _ => [srW1, srW2]) (fun _ => [srW3])
    (fun _ => [srW2])).1 (by decide)

/-- If the consumption loop of collect_all_data broke out early, the results
gathered at that moment number at least target, and at most target - 1 plus
the size of the crossing batch (bounded by B when every completed batch is). -/
theorem consumeLoop_early_bounds (target B : Nat) :
    ∀ (outs : List (Except String (List Post))) (acc : List Post),
      (∀ b, Except.ok b ∈ outs → b.length ≤ B) →
      (acc.length < target ∨ acc.length = 0) →
      (consumeLoop target acc outs).2 = true →
      target ≤ (consumeLoop target acc outs).1.length
        ∧ (consumeLoop target acc outs).1.length ≤ target - 1 + B := by
  intro outs
  induction outs with
  | nil =>
    intro acc hB hinv he
    simp [consumeLoop] at he
  | cons o rest ih =>
    intro acc hB hinv he
    cases o with
    | error e =>
      simp only [consumeLoop] at he ⊢
      exact ih acc (fun b hb => hB b (List.mem_cons_of_mem _ hb)) hinv he
    | ok batch =>
      simp only [consumeLoop] at he ⊢
      by_cases hc : target ≤ (acc ++ batch).length
      · rw [if_pos hc] at he ⊢
        have hb : batch.length ≤ B := hB batch (List.mem_cons_self _ _)
        have hlen : (acc ++ batch).length = acc.length + batch.length :=
          List.length_append acc batch
        refine ⟨hc, ?_⟩
        show (acc ++ batch).length ≤ target - 1 + B
        rcases hinv with h | h <;> omega
      · rw [if_neg hc] at he ⊢
        push_neg at hc
        exact ih (acc ++ batch)
          (fun b hb => hB b (List.mem_cons_of_mem _ hb)) (Or.inl hc) he

/-- Counterexample to C2 as stated: with target T = 2 and the code's
concurrency cap of 10, one completed task whose batch holds 12 copies of
one record makes the loop break on its first completion.  The break fires
on the raw count (the unique count is still 1 < T), and the total collected
R = 12 violates R < T + 10. -/
theorem scheduler_early_exit_cex :
    (consumeLoop 2 [] [Except.ok batchBigW]).2 = true
    ∧ (consumeLoop 2 [] [Except.ok batchBigW]).1.length = 12
    ∧ (dedupByUrl Post.url (consumeLoop 2 [] [Except.ok batchBigW]).1 []).length = 1
    ∧ ¬((consumeLoop 2 [] [Except.ok batchBigW]).1.length < 2 + 10) := by
  decide

/-- Claim C2 as amended: the scheduler stops consuming completions once the
raw (pre-dedup) count of collected results reaches the target T, and at the
moment of early exit the total collected R satisfies
T ≤ R ≤ T - 1 + B where B bounds a single task's batch size (the overshoot
is the last consumed batch, not the concurrency cap). -/
theorem scheduler_early_exit_bounds (target B : Nat)
    (outs : List (Except String (List Post)))
    (hB : outs.all (batchBoundedBy B) = true)
    (he : (consumeLoop target [] outs).2 = true) :
    target ≤ (consumeLoop target [] outs).1.length
    ∧ (consumeLoop target [] outs).1.length ≤ target - 1 + B := by
  refine consumeLoop_early_bounds target B outs [] ?_ (Or.inr rfl) he
  intro b hb
  have := (List.all_eq_true.mp hB) _ hb
  simpa [batchBoundedBy] using this

/-- Witness for the amended C2 at a concrete input: target 2, batches of at
most 3 posts, early exit with 2 ≤ R = 4 ≤ 2 - 1 + 3. -/
theorem scheduler_early_exit_bounds_witness :
    2 ≤ (consumeLoop 2 [] [Except.ok [postW1], Except.ok [postW1, postW2, postW3]]).1.length
    ∧ (consumeLoop 2 [] [Except.ok [postW1], Except.ok [postW1, postW2, postW3]]).1.length
        ≤ 2 - 1 + 3 :=
  scheduler_early_exit_bounds 2 3
    [Except.ok [postW1], Except.ok [postW1, postW2, postW3]]
    (by decide) (by decide)

/-- If the first m outcomes from `attempt` on are failures (of either
class) and the next outcome is a success within the loop bound, the retry
loop returns that success. -/
theorem retryAux_first_success (cfg : RetryConfig) (env : PMEnv)
    (out : Nat → AttemptOutcome) (body : String) :
    ∀ (m fuel attempt : Nat) (pool : PMState) (idx : Nat),
      attempt + fuel = cfg.max_retries →
      (∀ i, attempt ≤ i → i < attempt + m → (out i).isSuccess = false) →
      out (attempt + m) = .success body →
      attempt + m < cfg.max_retries →
      (retryAux cfg env out fuel attempt pool idx).1 = some body := by
  intro m
  induction m with
  | zero =>
    intro fuel attempt pool idx hinv hfail hsucc hlt
    cases fuel with
    | zero => omega
    | succ f =>
      simp only [Nat.add_zero] at hsucc
      simp [retryAux, hsucc]
  | succ m ih =>
    intro fuel attempt pool idx hinv hfail hsucc hlt
    cases fuel with
    | zero => omega
    | succ f =>
      have hfa : (out attempt).isSuccess = false :=
        hfail attempt le_rfl (by omega)
      cases hout : out attempt with
      | success b =>
        rw [hout] at hfa
        simp [AttemptOutcome.isSuccess] at hfa
      | proxyError =>
        have hc : attempt < cfg.max_retries - 1 := by omega
        simp only [retryAux, hout, if_pos hc]
        apply ih f (attempt + 1) _ _ (by omega) ?_ ?_ (by omega)
        · intro i h1 h2
          exact hfail i (by omega) (by omega)
        · have h3 : attempt + 1 + m = attempt + (m + 1) := by omega
          rw [h3]
          exact hsucc
      | transientError =>
        have hc : ¬((attempt == cfg.max_retries - 1) = true) := by
          simp only [beq_iff_eq]
          omega
        simp only [retryAux, hout, if_neg hc]
        apply ih f (attempt + 1) _ _ (by omega) ?_ ?_ (by omega)
        · intro i h1 h2
          exact hfail i (by omega) (by omega)
        · have h3 : attempt + 1 + m = attempt + (m + 1) := by omega
          rw [h3]
          exact hsucc

/-- When no attempt within the budget succeeds, the retry loop returns
None (it never raises). -/
theorem retryAux_no_success (cfg : RetryConfig) (env : PMEnv)
    (out : Nat → AttemptOutcome) :
    ∀ (fuel attempt : Nat) (pool : PMState) (idx : Nat),
      attempt + fuel ≤ cfg.max_retries →
      (∀ i, i < cfg.max_retries → (out i).isSuccess = false) →
      (retryAux cfg env out fuel attempt pool idx).1 = none := by
  intro fuel
  induction fuel with
  | zero =>
    intro attempt pool idx h1 h2
    simp [retryAux]
  | succ f ih =>
    intro attempt pool idx h1 h2
    have hfa := h2 attempt (by omega)
    cases hout : out attempt with
    | success b =>
      rw [hout] at hfa
      simp [AttemptOutcome.isSuccess] at hfa
    | proxyError =>
      simp only [retryAux, hout]
      by_cases hc : attempt < cfg.max_retries - 1
      · rw [if_pos hc]
        exact ih (attempt + 1) _ _ (by omega) h2
      · rw [if_neg hc]
    | transientError =>
      simp only [retryAux, hout]
      by_cases hc : (attempt == cfg.max_retries - 1) = true
      · rw [if_pos hc]
      · rw [if_neg hc]
        exact ih (attempt + 1) _ _ (by omega) h2

/-- The backoff sleeps the retry loop issues carry strictly increasing
attempt indices, each at least the starting attempt, and each sleeps
exactly 2 ^ attempt. -/
theorem retryAux_events (cfg : RetryConfig) (env : PMEnv)
    (out : Nat → AttemptOutcome) :
    ∀ (fuel attempt : Nat) (pool : PMState) (idx : Nat),
      ((retryAux cfg env out fuel attempt pool idx).2.2).Pairwise
        (fun e1 e2 => e1.attempt < e2.attempt)
      ∧ ∀ e ∈ (retryAux cfg env out fuel attempt pool idx).2.2,
          attempt ≤ e.attempt ∧ e.delay = 2 ^ e.attempt := by
  intro fuel
  induction fuel with
  | zero =>
    intro attempt pool idx
    simp [retryAux]
  | succ f ih =>
    intro attempt pool idx
    cases hout : out attempt with
    | success b => simp [retryAux, hout]
    | proxyError =>
      simp only [retryAux, hout]
      by_cases hc : attempt < cfg.max_retries - 1
      · rw [if_pos hc]
        obtain ⟨hp, hm⟩ := ih (attempt + 1)
          (evictBad cfg (getProxyForRequest cfg env pool idx).1
            (getProxyForRequest cfg env pool idx).2.1)
          (getProxyForRequest cfg env pool idx).2.2
        constructor
        · exact List.Pairwise.cons
            (fun e he => Nat.lt_of_succ_le (hm e he).1) hp
        · intro e he
          rcases List.mem_cons.mp he with rfl | he
          · exact ⟨le_rfl, rfl⟩
          · exact ⟨Nat.le_of_succ_le (hm e he).1, (hm e he).2⟩
      · rw [if_neg hc]
        simp
    | transientError =>
      simp only [retryAux, hout]
      by_cases hc : (attempt == cfg.max_retries - 1) = true
      · rw [if_pos hc]
        simp
      · rw [if_neg hc]
        obtain ⟨hp, hm⟩ := ih (attempt + 1)
          (getProxyForRequest cfg env pool idx).2.1
          (getProxyForRequest cfg env pool idx).2.2
        constructor
        · exact List.Pairwise.cons
            (fun e he => Nat.lt_of_succ_le (hm e he).1) hp
        · intro e he
          rcases List.mem_cons.mp he with rfl | he
          · exact ⟨le_rfl, rfl⟩
          · exact ⟨Nat.le_of_succ_le (hm e he).1, (hm e he).2⟩

/-- If the first m outcomes from `attempt` on are non-200 (any other status
or an exception) and the next one is a 200 within the loop bound,
fetch_with_retry returns its body. -/
theorem fetchAux_first200 (mr : Nat) (hout : Nat → HttpOutcome) (body : String) :
    ∀ (m fuel attempt : Nat),
      attempt + fuel = mr →
      (∀ i, attempt ≤ i → i < attempt + m → (hout i).is200 = false) →
      hout (attempt + m) = .resp 200 body →
      attempt + m < mr →
      (fetchWithRetryAux mr hout fuel attempt).1 = some body := by
  intro m
  induction m with
  | zero =>
    intro fuel attempt hinv hfail hsucc hlt
    cases fuel with
    | zero => omega
    | succ f =>
      simp only [Nat.add_zero] at hsucc
      simp [fetchWithRetryAux, hsucc]
  | succ m ih =>
    intro fuel attempt hinv hfail hsucc hlt
    cases fuel with
    | zero => omega
    | succ f =>
      have hfa : (hout attempt).is200 = false := hfail attempt le_rfl (by omega)
      have hnext : ∀ i, attempt + 1 ≤ i → i < attempt + 1 + m →
          (hout i).is200 = false :=
        fun i ha hb => hfail i (by omega) (by omega)
      have hs : hout (attempt + 1 + m) = .resp 200 body := by
        have h3 : attempt + 1 + m = attempt + (m + 1) := by omega
        rw [h3]
        exact hsucc
      cases ho : hout attempt with
      | resp status b =>
        rw [ho] at hfa
        simp only [HttpOutcome.is200] at hfa
        simp only [fetchWithRetryAux, ho, hfa, Bool.false_eq_true, if_false]
        by_cases h9 : (status == 429) = true
        · rw [if_pos h9]
          exact ih f (attempt + 1) (by omega) hnext hs (by omega)
        · rw [if_neg h9]
          exact ih f (attempt + 1) (by omega) hnext hs (by omega)
      | exn =>
        simp only [fetchWithRetryAux, ho]
        by_cases hc : attempt < mr - 1
        · rw [if_pos hc]
          exact ih f (attempt + 1) (by omega) hnext hs (by omega)
        · rw [if_neg hc]
          exact ih f (attempt + 1) (by omega) hnext hs (by omega)

/-- When no attempt within the budget returns a 200, fetch_with_retry
returns None (it never raises). -/
theorem fetchAux_no200 (mr : Nat) (hout : Nat → HttpOutcome) :
    ∀ (fuel attempt : Nat),
      attempt + fuel ≤ mr →
      (∀ i, i < mr → (hout i).is200 = false) →
      (fetchWithRetryAux mr hout fuel attempt).1 = none := by
  intro fuel
  induction fuel with
  | zero =>
    intro attempt h1 h2
    simp [fetchWithRetryAux]
  | succ f ih =>
    intro attempt h1 h2
    have hfa := h2 attempt (by omega)
    cases ho : hout attempt with
    | resp status b =>
      rw [ho] at hfa
      simp only [HttpOutcome.is200] at hfa
      simp only [fetchWithRetryAux, ho, hfa, Bool.false_eq_true, if_false]
      by_cases h9 : (status == 429) = true
      · rw [if_pos h9]
        exact ih (attempt + 1) (by omega) h2
      · rw [if_neg h9]
        exact ih (attempt + 1) (by omega) h2
    | exn =>
      simp only [fetchWithRetryAux, ho]
      by_cases hc : attempt < mr - 1
      · rw [if_pos hc]
        exact ih (attempt + 1) (by omega) h2
      · rw [if_neg hc]
        exact ih (attempt + 1) (by omega) h2

/-- The sleeps fetch_with_retry issues carry strictly increasing attempt
indices, each at least the starting attempt, and every transient-failure
backoff among them sleeps exactly 2 ^ attempt. -/
theorem fetchAux_events (mr : Nat) (hout : Nat → HttpOutcome) :
    ∀ (fuel attempt : Nat),
      ((fetchWithRetryAux mr hout fuel attempt).2).Pairwise
        (fun e1 e2 => e1.attempt < e2.attempt)
      ∧ ∀ e ∈ (fetchWithRetryAux mr hout fuel attempt).2,
          attempt ≤ e.attempt
            ∧ (e.isBackoff = true → e.delay = 2 ^ e.attempt) := by
  intro fuel
  induction fuel with
  | zero =>
    intro attempt
    simp [fetchWithRetryAux]
  | succ f ih =>
    intro attempt
    cases ho : hout attempt with
    | resp status b =>
      by_cases h2 : (status == 200) = true
      · simp [fetchWithRetryAux, ho, h2]
      · simp only [fetchWithRetryAux, ho, h2, Bool.false_eq_true, if_false]
        by_cases h9 : (status == 429) = true
        · rw [if_pos h9]
          obtain ⟨hp, hm⟩ := ih (attempt + 1)
          refine ⟨List.Pairwise.cons (fun e he => Nat.lt_of_succ_le (hm e he).1) hp, ?_⟩
          intro e he
          rcases List.mem_cons.mp he with rfl | he
          · exact ⟨le_rfl, fun hb => by simp [SleepEv.isBackoff] at hb⟩
          · exact ⟨Nat.le_of_succ_le (hm e he).1, (hm e he).2⟩
        · rw [if_neg h9]
          obtain ⟨hp, hm⟩ := ih (attempt + 1)
          exact ⟨hp, fun e he => ⟨Nat.le_of_succ_le (hm e he).1, (hm e he).2⟩⟩
    | exn =>
      simp only [fetchWithRetryAux, ho]
      by_cases hc : attempt < mr - 1
      · rw [if_pos hc]
        obtain ⟨hp, hm⟩ := ih (attempt + 1)
        refine ⟨List.Pairwise.cons (fun e he => Nat.lt_of_succ_le (hm e he).1) hp, ?_⟩
        intro e he
        rcases List.mem_cons.mp he with rfl | he
        · exact ⟨le_rfl, fun _ => rfl⟩
        · exact ⟨Nat.le_of_succ_le (hm e he).1, (hm e he).2⟩
      · rw [if_neg hc]
        obtain ⟨hp, hm⟩ := ih (attempt + 1)
        exact ⟨hp, fun e he => ⟨Nat.le_of_succ_le (hm e he).1, (hm e he).2⟩⟩

/-- Claim C5: a fetch that fails transiently k times (k < max_retries) and
then succeeds returns the successful response; one that never succeeds
within the budget returns None rather than raising, for every expected
failure class, in both the synchronous and the async client. -/
theorem fetch_retry_semantics (cfg : RetryConfig) (env : PMEnv)
    (pool : PMState) (out1 out2 : Nat → AttemptOutcome) (k : Nat)
    (body : String) (mr1 mr2 k2 : Nat) (hout1 hout2 : Nat → HttpOutcome)
    (body2 : String)
    (h1 : ∀ i, i < k → out1 i = .transientError)
    (h2 : out1 k = .success body)
    (h3 : k < cfg.max_retries)
    (h4 : ∀ i, i ≤ cfg.max_retries → (out2 i).isSuccess = false)
    (h5 : ∀ i, i < k2 → hout1 i = .exn)
    (h6 : hout1 k2 = .resp 200 body2)
    (h7 : k2 < mr1)
    (h8 : ∀ i, i ≤ mr2 → (hout2 i).is200 = false) :
    (retryRequest cfg env out1 pool).1 = some body
    ∧ (retryRequest cfg env out2 pool).1 = none
    ∧ (fetchWithRetry mr1 hout1).1 = some body2
    ∧ (fetchWithRetry mr2 hout2).1 = none := by
  refine ⟨?_, ?_, ?_, ?_⟩
  · refine retryAux_first_success cfg env out1 body k cfg.max_retries 0 pool 0
      (by omega) ?_ ?_ (by omega)
    · intro i hi1 hi2
      rw [h1 i (by omega)]
      rfl
    · rw [Nat.zero_add]
      exact h2
  · exact retryAux_no_success cfg env out2 cfg.max_retries 0 pool 0 (by omega)
      (fun i hi => h4 i (by omega))
  · refine fetchAux_first200 mr1 hout1 body2 k2 mr1 0 (by omega) ?_ ?_ (by omega)
    · intro i hi1 hi2
      rw [h5 i (by omega)]
      rfl
    · rw [Nat.zero_add]
      exact h6
  · exact fetchAux_no200 mr2 hout2 mr2 0 (by omega) (fun i hi => h8 i (by omega))

/-- Witness for C5 at concrete inputs: two transient failures then success
returns the success; never succeeding returns None, in both clients. -/
theorem fetch_retry_semantics_witness :
    (retryRequest cfgNoProxyW envW outTransientW poolW).1 = some "yes"
    ∧ (retryRequest cfgNoProxyW envW outAllFailW poolW).1 = none
    ∧ (fetchWithRetry 3 houtW).1 = some "body"
    ∧ (fetchWithRetry 3 houtAllFailW).1 = none :=
  fetch_retry_semantics cfgNoProxyW envW poolW outTransientW outAllFailW 2
    "yes" 3 3 2 houtW houtAllFailW "body" (by decide) (by decide) (by decide)
    (by decide) (by decide) (by decide) (by decide) (by decide)

/-- Counterexample to C1 as stated: with max_retries = 3, a run whose
failures are j = 3 proxy failures and k = 0 transient failures, with a
success available at the next attempt, returns None — so a request with
k < maxRetries transient failures does not always succeed: proxy-failure
retries consume the same budget. -/
theorem proxy_retry_budget_cex :
    (retryRequest cfgW envW outProxyFailW poolW).1 = none
    ∧ (∀ i, i < 3 → outProxyFailW i = .proxyError)
    ∧ outProxyFailW 3 = .success "ok"
    ∧ 0 < cfgW.max_retries := by
  decide

/-- Claim C1 as amended: a proxy-specific failure evicts the used managed
proxy from the working set (when one was used and its url parses back) and
the request is retried with a newly selected proxy after the exponential
backoff sleep; this retry consumes the same budget as transient retries,
so with j proxy failures and k transient failures before the first success
the request succeeds exactly when j + k < max_retries and returns None
otherwise. -/
theorem proxy_retry_budget (cfg : RetryConfig) (env : PMEnv)
    (out : Nat → AttemptOutcome) (pool : PMState) (n : Nat) (body : String)
    (hfail : ∀ i, i < n → (out i).isSuccess = false)
    (hsucc : out n = .success body) :
    (retryRequest cfg env out pool).1
      = (if n < cfg.max_retries then some body else none)
    ∧ (∀ (s : PMState) (p : Proxy), cfg.proxy_url = "" →
        parseBadProxy (get_proxy_dict_url p) = some ⟨p.ip, p.port⟩ →
        ∀ q ∈ (evictBad cfg (some (get_proxy_dict_url p)) s).working_proxies,
          keptBy ⟨p.ip, p.port⟩ q = true) := by
  constructor
  · by_cases h : n < cfg.max_retries
    · rw [if_pos h]
      refine retryAux_first_success cfg env out body n cfg.max_retries 0 pool 0
        (by omega) (fun i hi1 hi2 => hfail i (by omega)) ?_ (by omega)
      rw [Nat.zero_add]
      exact hsucc
    · rw [if_neg h]
      exact retryAux_no_success cfg env out cfg.max_retries 0 pool 0 (by omega)
        (fun i hi => hfail i (by omega))
  · intro s p hurl hparse q hq
    have hne : (cfg.proxy_url != "") = false := by
      rw [hurl]
      rfl
    simp only [evictBad, hne, Bool.false_eq_true, if_false, hparse] at hq
    exact (List.mem_filter.mp hq).2

/-- Witness for the amended C1 at a concrete input: two transient failures
then success within the budget returns the success, and eviction removes
exactly the matching ip/port entries. -/
theorem proxy_retry_budget_witness :
    (retryRequest cfgW envW outTransientW poolW).1
      = (if 2 < cfgW.max_retries then some "yes" else none)
    ∧ (∀ (s : PMState) (p : Proxy), cfgW.proxy_url = "" →
        parseBadProxy (get_proxy_dict_url p) = some ⟨p.ip, p.port⟩ →
        ∀ q ∈ (evictBad cfgW (some (get_proxy_dict_url p)) s).working_proxies,
          keptBy ⟨p.ip, p.port⟩ q = true) :=
  proxy_retry_budget cfgW envW outTransientW poolW 2 "yes" (by decide) (by decide)

/-- Claim C9: within one fetch the backoff delays are non-decreasing in the
attempt index: every recorded backoff sleep of the synchronous retry loop,
and the transient-failure backoff sleeps of the async loop, form a
non-decreasing delay sequence. -/
theorem backoff_nondecreasing (cfg : RetryConfig) (env : PMEnv)
    (out : Nat → AttemptOutcome) (pool : PMState) (mr : Nat)
    (hout : Nat → HttpOutcome) :
    (((retryRequest cfg env out pool).2.2).map SleepEv.delay).Pairwise (· ≤ ·)
    ∧ ((((fetchWithRetry mr hout).2).filter SleepEv.isBackoff).map
        SleepEv.delay).Pairwise (· ≤ ·) := by
  constructor
  · obtain ⟨hp, hm⟩ := retryAux_events cfg env out cfg.max_retries 0 pool 0
    rw [List.pairwise_map]
    exact List.Pairwise.imp_of_mem
      (fun {a b} ha hb hr => by
        rw [(hm a ha).2, (hm b hb).2]
        exact Nat.pow_le_pow_right (by norm_num) (Nat.le_of_lt hr)) hp
  · obtain ⟨hp, hm⟩ := fetchAux_events mr hout mr 0
    rw [List.pairwise_map]
    refine List.Pairwise.imp_of_mem
      (fun {a b} ha hb hr => ?_) (hp.filter SleepEv.isBackoff)
    have ha2 := List.mem_filter.mp ha
    have hb2 := List.mem_filter.mp hb
    rw [(hm a ha2.1).2 ha2.2, (hm b hb2.1).2 hb2.2]
    exact Nat.pow_le_pow_right (by norm_num) (Nat.le_of_lt hr)

/-- remove_proxy leaves only entries that differ from the removed ip/port
in ip or in port. -/
theorem remove_proxy_kept (s : PMState) (ref : ProxyRef) :
    ∀ q ∈ (remove_proxy s ref).working_proxies, keptBy ref q = true :=
  fun _ hq => (List.mem_filter.mp hq).2

/-- When the refresh guard is off, get_proxy leaves the state unchanged and
hands out a member of the current working set (or nothing). -/
theorem get_proxy_no_refresh (env : PMEnv) (s : PMState) (idx now : Nat)
    (h : needs_refresh s now = false)
    (hpick : ∀ n l, l ≠ [] → env.pick n l ∈ l) :
    (get_proxy env s idx now).2 = s
    ∧ ∀ p, (get_proxy env s idx now).1 = some p → p ∈ s.working_proxies := by
  simp only [get_proxy, h, Bool.false_eq_true, if_false]
  by_cases he : s.working_proxies.isEmpty
  · simp [he]
  · simp only [he, Bool.false_eq_true, if_false]
    refine ⟨by trivial, ?_⟩
    intro p hp
    have : env.pick idx s.working_proxies = p := by
      simpa using hp
    rw [← this]
    exact hpick idx s.working_proxies
      (fun hnil => he (by simp [hnil]))

/-- Along any operation sequence in which no refresh runs, a working set
whose entries all avoid a given ip/port keeps that invariant, and no
get_proxy call returns a proxy carrying it. -/
theorem runOps_keeps_removed (env : PMEnv) (ref : ProxyRef)
    (hpick : ∀ n l, l ≠ [] → env.pick n l ∈ l) :
    ∀ (ops : List PoolOp) (s : PMState) (idx : Nat),
      (∀ q ∈ s.working_proxies, keptBy ref q = true) →
      (runOps env s idx ops).2.2 = false →
      ((runOps env s idx ops).2.1.all fun o => o.all fun q => keptBy ref q) = true
      ∧ ∀ q ∈ (runOps env s idx ops).1.working_proxies, keptBy ref q = true := by
  intro ops
  induction ops with
  | nil =>
    intro s idx hs hr
    exact ⟨rfl, hs⟩
  | cons op rest ih =>
    intro s idx hs hr
    cases op with
    | removeOp q0 =>
      simp only [runOps] at hr ⊢
      exact ih (remove_proxy s q0) idx
        (fun q hq => hs q (List.mem_of_mem_filter hq)) hr
    | getOp now =>
      simp only [runOps] at hr ⊢
      have hsplit := Bool.or_eq_false_iff.mp hr
      obtain ⟨hg2, hg1⟩ := get_proxy_no_refresh env s idx now hsplit.1 hpick
      rw [hg2] at hsplit ⊢
      obtain ⟨hall, hfin⟩ := ih s (idx + 1) hs hsplit.2
      refine ⟨?_, hfin⟩
      rw [List.all_cons, hall, Bool.and_true]
      cases hv : (get_proxy env s idx now).1 with
      | none => rfl
      | some p =>
        simpa [Option.all] using hs p (hg1 p hv)
    | refreshOp now =>
      simp only [runOps] at hr
      cases hr

/-- Claim C3: after remove(p) and with no subsequent refresh (neither a
direct one nor get_proxy's inline one), no later get_proxy call returns a
proxy with p's ip and port, and the working set stays free of them until a
refresh replaces it. -/
theorem removed_proxy_not_returned (env : PMEnv) (s0 : PMState)
    (ref : ProxyRef) (idx : Nat) (ops : List PoolOp)
    (hpick : ∀ n l, l ≠ [] → env.pick n l ∈ l)
    (hnoref : (runOps env (remove_proxy s0 ref) idx ops).2.2 = false) :
    ((runOps env (remove_proxy s0 ref) idx ops).2.1.all
        fun o => o.all fun q => keptBy ref q) = true
    ∧ ∀ q ∈ (runOps env (remove_proxy s0 ref) idx ops).1.working_proxies,
        keptBy ref q = true :=
  runOps_keeps_removed env ref hpick ops (remove_proxy s0 ref) idx
    (remove_proxy_kept s0 ref) hnoref

/-- Witness for C3 at a concrete input: proxyW1 is removed from a fresh
pool; two later get calls (one after a further removal) never return its
ip/port and the final working set avoids it. -/
theorem removed_proxy_not_returned_witness :
    ((runOps envW (remove_proxy poolW ⟨"a", "1"⟩) 0
        [.getOp 0, .removeOp ⟨"b", "2"⟩, .getOp 1]).2.1.all
      fun o => o.all fun q => keptBy ⟨"a", "1"⟩ q) = true
    ∧ ∀ q ∈ (runOps envW (remove_proxy poolW ⟨"a", "1"⟩) 0
          [.getOp 0, .removeOp ⟨"b", "2"⟩, .getOp 1]).1.working_proxies,
        keptBy ⟨"a", "1"⟩ q = true :=
  removed_proxy_not_returned envW poolW ⟨"a", "1"⟩ 0
    [.getOp 0, .removeOp ⟨"b", "2"⟩, .getOp 1]
    (fun n l hl => by
      cases l with
      | nil => exact absurd rfl hl
      | cons a t => exact List.mem_cons_self a t)
    (by decide)

/-- Claim C7: fetch_proxies merges its independent sources and returns a
list with pairwise distinct host:port keys; an erroring source contributes
exactly what an empty source does, without failing the call; and when every
source yields nothing, a get on an empty pool refreshes to an empty pool
and returns None (no error). -/
theorem fetch_proxies_merge (s1 s2 s3 : Except String (List Proxy))
    (env : PMEnv) (s : PMState) (idx now : Nat) (e : String)
    (hs1 : sourceList env.src1 = []) (hs2 : sourceList env.src2 = [])
    (hs3 : sourceList env.src3 = []) (hemp : s.working_proxies = []) :
    ((fetch_proxies s1 s2 s3).Pairwise fun p q => proxyKey p ≠ proxyKey q)
    ∧ fetch_proxies (.error e) s2 s3 = fetch_proxies (.ok []) s2 s3
    ∧ (get_proxy env s idx now).1 = none := by
  refine ⟨dedupByUrl_pairwise proxyKey _ [], rfl, ?_⟩
  have hf : fetch_proxies env.src1 env.src2 env.src3 = [] := by
    unfold fetch_proxies dedupProxies
    rw [hs1, hs2, hs3]
    rfl
  have hnr : needs_refresh s now = true := by
    simp [needs_refresh, hemp]
  simp [get_proxy, hnr, refresh_proxies, hf]

/-- Witness for C7 at concrete inputs: overlapping sources dedup to unique
host:port keys, an erroring source is an empty one, and a get on an empty
pool backed by empty sources returns None. -/
theorem fetch_proxies_merge_witness :
    ((fetch_proxies (.ok [proxyW1, proxyW2]) (.error "down")
        (.ok [proxyW1, proxyW3])).Pairwise fun p q => proxyKey p ≠ proxyKey q)
    ∧ fetch_proxies (.error "oops") (.error "down") (.ok [proxyW1, proxyW3])
        = fetch_proxies (.ok []) (.error "down") (.ok [proxyW1, proxyW3])
    ∧ (get_proxy envW ⟨[], none⟩ 0 0).1 = none :=
  fetch_proxies_merge (.ok [proxyW1, proxyW2]) (.error "down")
    (.ok [proxyW1, proxyW3]) envW ⟨[], none⟩ 0 0 "oops"
    rfl rfl rfl rfl

/-- The keyword-collection fold keeps whatever is already accumulated. -/
theorem keywords_foldl_superset (text : String) :
    ∀ (tax : List (String × List String)) (init : List String) (x : String),
      x ∈ init →
      x ∈ tax.foldl
        (fun acc ck =>
          acc ++ ck.2.filter (fun kw => strContains (lowerStr text) (lowerStr kw)))
        init := by
  intro tax
  induction tax with
  | nil =>
    intro init x hx
    exact hx
  | cons c tax ih =>
    intro init x hx
    exact ih _ x (List.mem_append_left _ hx)

/-- A taxonomy keyword whose lowercase form occurs in the lowercase text is
collected by the keyword fold. -/
theorem keywords_foldl_mem (text : String) :
    ∀ (tax : List (String × List String)) (init : List String)
      (p : String × List String), p ∈ tax →
      ∀ kw ∈ p.2, strContains (lowerStr text) (lowerStr kw) = true →
        kw ∈ tax.foldl
          (fun acc ck =>
            acc ++ ck.2.filter (fun kw => strContains (lowerStr text) (lowerStr kw)))
          init := by
  intro tax
  induction tax with
  | nil =>
    intro init p hp
    exact absurd hp (List.not_mem_nil p)
  | cons c tax ih =>
    intro init p hp kw hkw hcont
    rcases List.mem_cons.mp hp with rfl | hp
    · refine keywords_foldl_superset text tax _ kw ?_
      exact List.mem_append_right _ (List.mem_filter.mpr ⟨hkw, hcont⟩)
    · exact ih _ p hp kw hkw hcont

/-- When no taxonomy keyword occurs in the text, the keyword fold adds
nothing. -/
theorem keywords_foldl_nil (text : String) :
    ∀ (tax : List (String × List String)),
      (∀ p ∈ tax, ∀ kw ∈ p.2, strContains (lowerStr text) (lowerStr kw) = false) →
      ∀ (init : List String),
        tax.foldl
          (fun acc ck =>
            acc ++ ck.2.filter (fun kw => strContains (lowerStr text) (lowerStr kw)))
          init = init := by
  intro tax
  induction tax with
  | nil =>
    intro hno init
    rfl
  | cons c tax ih =>
    intro hno init
    have hflt : c.2.filter (fun kw => strContains (lowerStr text) (lowerStr kw)) = [] := by
      refine List.filter_eq_nil_iff.mpr ?_
      intro kw hkw
      rw [hno c (List.mem_cons_self c tax) kw hkw]
      exact Bool.false_ne_true
    rw [List.foldl_cons, hflt, List.append_nil]
    exact ih (fun p hp => hno p (List.mem_cons_of_mem c hp)) init

/-- extract_keywords contains every taxonomy keyword occurring
case-insensitively in the text. -/
theorem extract_keywords_mem (tax : List (String × List String))
    (text : String) (p : String × List String) (hp : p ∈ tax) :
    ∀ kw ∈ p.2, strContains (lowerStr text) (lowerStr kw) = true →
      kw ∈ extract_keywords tax text := by
  intro kw hkw hcont
  unfold extract_keywords
  rw [List.mem_dedup]
  exact keywords_foldl_mem text tax [] p hp kw hkw hcont

/-- extract_keywords is empty when no taxonomy keyword occurs in the text. -/
theorem extract_keywords_nil (tax : List (String × List String))
    (text : String)
    (hno : ∀ p ∈ tax, ∀ kw ∈ p.2, strContains (lowerStr text) (lowerStr kw) = false) :
    extract_keywords tax text = [] := by
  unfold extract_keywords
  rw [keywords_foldl_nil text tax hno []]
  rfl

/-- Claim C6: the emitted record's tag set contains every taxonomy keyword
occurring case-insensitively in the combined snippet/title text, is never
empty, and when no taxonomy keyword matches it is exactly the singleton of
the query's own context keyword. -/
theorem record_tags (taxonomy : List (String × List String))
    (r : SearchResult) (keyword : String) :
    ((parse_linkedin_result taxonomy r keyword).keywords_found ≠ [])
    ∧ (∀ p ∈ taxonomy, ∀ kw ∈ p.2,
        strContains (lowerStr (r.snippet ++ " " ++ r.title)) (lowerStr kw) = true →
        kw ∈ (parse_linkedin_result taxonomy r keyword).keywords_found)
    ∧ ((∀ p ∈ taxonomy, ∀ kw ∈ p.2,
          strContains (lowerStr (r.snippet ++ " " ++ r.title)) (lowerStr kw) = false) →
        (parse_linkedin_result taxonomy r keyword).keywords_found = [keyword]) := by
  have hkf : (parse_linkedin_result taxonomy r keyword).keywords_found
      = (if (extract_keywords taxonomy (r.snippet ++ " " ++ r.title)).isEmpty
            && !((extract_keywords taxonomy (r.snippet ++ " " ++ r.title)).contains
                  keyword)
         then extract_keywords taxonomy (r.snippet ++ " " ++ r.title) ++ [keyword]
         else extract_keywords taxonomy (r.snippet ++ " " ++ r.title)) := rfl
  by_cases h0 : extract_keywords taxonomy (r.snippet ++ " " ++ r.title) = []
  · rw [hkf, h0]
    simp only [List.isEmpty_nil, List.contains_nil, Bool.not_false, Bool.and_self,
      if_true, List.nil_append]
    refine ⟨by simp, ?_, fun _ => by trivial⟩
    intro p hp kw hkw hcont
    have := extract_keywords_mem taxonomy (r.snippet ++ " " ++ r.title) p hp
      kw hkw hcont
    rw [h0] at this
    exact absurd this (List.not_mem_nil kw)
  · have hne : (extract_keywords taxonomy (r.snippet ++ " " ++ r.title)).isEmpty
        = false := by
      simpa [List.isEmpty_iff] using h0
    rw [hkf]
    simp only [hne, Bool.false_and, Bool.false_eq_true, if_false]
    refine ⟨h0, ?_, ?_⟩
    · intro p hp kw hkw hcont
      exact extract_keywords_mem taxonomy (r.snippet ++ " " ++ r.title) p hp
        kw hkw hcont
    · intro hno
      exact absurd (extract_keywords_nil taxonomy (r.snippet ++ " " ++ r.title) hno) h0

/-- Witness for C6 at the spec's scenario: a snippet with no taxonomy
keyword and query context keyword Acme Corp yields exactly that tag. -/
theorem record_tags_witness :
    (parse_linkedin_result keywords_taxonomy rAcmeW "Acme Corp").keywords_found
      = ["Acme Corp"] :=
  (record_tags keywords_taxonomy rAcmeW "Acme Corp").2.2 (by decide)

end Spec2Proof
